import Mathlib

/-!
Verification development for the heat-acclimation calendar application
(src/app.py).  The application schedules heat-training sessions from a race
date using the Python datetime library, then projects the session dates onto
month grids built with calendar.monthcalendar.

The embedding has two layers.

Layer 1 models the proleptic Gregorian calendar arithmetic of the Python
datetime library (CPython Lib/datetime.py): ymd2ord models
datetime.toordinal (via days_before_year and days_before_month), ord2ymd
models the inverse conversion used by datetime internals (the
divmod cascade over 400-year, 100-year, 4-year and 1-year cycles, with the
month guessed from the day of year and corrected by at most one).  The two
month tables of CPython (days before month, days in month) are expressed as
closed arithmetic formulas that agree with the tables on months 1..12; this
keeps every proof goal inside linear integer arithmetic.  Division on Int
is Euclidean, which coincides with Python floor division for the positive
divisors used here.

Layer 2 translates src/app.py itself: the two protocol schedulers, the
session-set normalizer, the month-grid builders and the month selection, on
a PyDateTime structure holding the toordinal value plus the time-of-day
fields that datetime.replace manipulates.
-/

/-- Days from January 1 to the first day of month m in a non-leap year.
Models the cumulative table _DAYS_BEFORE_MONTH of CPython datetime; for
m in 1..12 the formula agrees with the table (0, 31, 59, 90, 120, 151,
181, 212, 243, 273, 304, 334). -/
def days_before_month (m : Int) : Int :=
  if m ≤ 2 then 31 * (m - 1) else 59 + (153 * (m - 3) + 2) / 5

/-- Length of month m in a non-leap year.  Models the table
_DAYS_IN_MONTH of CPython datetime; for m in 1..12 the formula agrees with
the table (31, 28, 31, 30, 31, 30, 31, 31, 30, 31, 30, 31). -/
def days_in_month_nonleap (m : Int) : Int :=
  if m = 2 then 28 else 30 + (m + m / 8) % 2

/-- Gregorian leap-year predicate, as in Python calendar.isleap and
datetime._is_leap: divisible by 4 and (not by 100 or by 400). -/
def is_leap (y : Int) : Bool := y % 4 == 0 && (y % 100 != 0 || y % 400 == 0)

/-- Number of days before January 1 of year y, as in CPython
datetime._days_before_year. -/
def days_before_year (y : Int) : Int :=
  (y - 1) * 365 + (y - 1) / 4 - (y - 1) / 100 + (y - 1) / 400

/-- Length of month m of year y, as computed by CPython
datetime._days_in_month (and calendar.monthrange): the non-leap length,
plus one for February of a leap year. -/
def days_in_month (y m : Int) : Int :=
  days_in_month_nonleap m + (if m = 2 ∧ is_leap y then 1 else 0)

/-- Proleptic Gregorian ordinal of (y, m, d), with ordinal 1 being
January 1 of year 1.  Models CPython datetime._ymd2ord, hence
datetime.toordinal. -/
def ymd2ord (y m d : Int) : Int :=
  days_before_year y + days_before_month m +
    (if 2 < m ∧ is_leap y then 1 else 0) + d

/-- Month and day of a given day of year (r4, zero-based) together with a
leap correction L (0 or 1): the month is guessed as (r4 + 50) / 32 and
corrected downward by one when the guess starts after r4.  Models the
month-selection tail of CPython datetime._ord2ymd, with L playing the role
of the leapyear boolean added to the table entries. -/
def monthsel (r4 L : Int) : Int × Int :=
  let mg := (r4 + 50) / 32
  let preceding := days_before_month mg + (if 2 < mg then L else 0)
  if r4 < preceding then
    (mg - 1, r4 - (preceding - (days_in_month_nonleap (mg - 1) +
      (if mg - 1 = 2 then L else 0))) + 1)
  else (mg, r4 - preceding + 1)

/-- Inverse of ymd2ord: year, month and day of a proleptic Gregorian
ordinal.  Models CPython datetime._ord2ymd: the ordinal (minus one) is
decomposed by divmod into 400-year, 100-year, 4-year and single-year
cycles; the boundary case n1 = 4 or n100 = 4 is December 31 of the
previous year, and otherwise the leap flag n1 = 3 and (n4 != 24 or
n100 = 3) feeds the month selection. -/
def ord2ymd (n0 : Int) : Int × Int × Int :=
  let n := n0 - 1
  let n400 := n / 146097
  let r1 := n % 146097
  let n100 := r1 / 36524
  let r2 := r1 % 36524
  let n4 := r2 / 1461
  let r3 := r2 % 1461
  let n1 := r3 / 365
  let r4 := r3 % 365
  let year := n400 * 400 + n100 * 100 + n4 * 4 + n1 + 1
  if n1 = 4 ∨ n100 = 4 then (year - 1, 12, 31)
  else
    let L : Int := if n1 = 3 ∧ (n4 ≠ 24 ∨ n100 = 3) then 1 else 0
    let md := monthsel r4 L
    (year, md.1, md.2)

example : ymd2ord 1 1 1 = 1 := by decide
example : ymd2ord 1970 1 1 = 719163 := by decide
example : ymd2ord 2024 8 10 = 739108 := by decide
example : ord2ymd 739108 = (2024, 8, 10) := by decide
example : ord2ymd 1 = (1, 1, 1) := by decide
example : ord2ymd (ymd2ord 2024 12 31) = (2024, 12, 31) := by decide
example : ord2ymd (ymd2ord 2000 2 29) = (2000, 2, 29) := by decide
example : ord2ymd (ymd2ord 1900 2 28) = (1900, 2, 28) := by decide
example : ord2ymd (ymd2ord 2100 3 1) = (2100, 3, 1) := by decide
example : ymd2ord 2024 2 29 + 1 = ymd2ord 2024 3 1 := by decide

/-- Correctness of the month selection: the produced (month, day) pair is
valid and its table offset reconstructs the day of year. -/
theorem monthsel_correct (r4 L m d : Int) (h0 : 0 ≤ r4) (h1 : r4 ≤ 364 + L)
    (hL : L = 0 ∨ L = 1) (h : monthsel r4 L = (m, d)) :
    days_before_month m + (if 2 < m then L else 0) + d = r4 + 1 ∧
    1 ≤ m ∧ m ≤ 12 ∧ 1 ≤ d ∧
    d ≤ days_in_month_nonleap m + (if m = 2 then L else 0) := by
  have hm12 : (r4 + 50) / 32 = 1 ∨ (r4 + 50) / 32 = 2 ∨ (r4 + 50) / 32 = 3 ∨
      (r4 + 50) / 32 = 4 ∨ (r4 + 50) / 32 = 5 ∨ (r4 + 50) / 32 = 6 ∨
      (r4 + 50) / 32 = 7 ∨ (r4 + 50) / 32 = 8 ∨ (r4 + 50) / 32 = 9 ∨
      (r4 + 50) / 32 = 10 ∨ (r4 + 50) / 32 = 11 ∨ (r4 + 50) / 32 = 12 := by
    omega
  simp only [monthsel, days_before_month, days_in_month_nonleap] at h
  split_ifs at h <;>
    (simp only [Prod.mk.injEq] at h
     obtain ⟨h2, h3⟩ := h
     subst h2 h3
     simp only [days_before_month, days_in_month_nonleap]
     split_ifs <;> omega)

/-- Days before year 1 + 400a + 100b + 4c + e, written as whole cycles. -/
theorem dby_cascade (a b c e : Int) (hb : 0 ≤ b ∧ b ≤ 3) (hc : 0 ≤ c ∧ c ≤ 24)
    (he : 0 ≤ e ∧ e ≤ 3) :
    days_before_year (a * 400 + b * 100 + c * 4 + e + 1) =
      a * 146097 + b * 36524 + c * 1461 + e * 365 := by
  simp only [days_before_year]
  omega

/-- Cycle-boundary case of the ordinal decomposition: the year just before
year 400a + 100b + 4c + e + 1 is a leap year and its day count closes the
cycle. -/
theorem dby_cascade_dec (a b c e : Int) (hb : 0 ≤ b ∧ b ≤ 4) (hc : 0 ≤ c ∧ c ≤ 24)
    (he : 0 ≤ e ∧ e ≤ 4) (hdec : e = 4 ∨ b = 4)
    (h4 : e = 4 → c ≤ 23) (h400 : b = 4 → c = 0 ∧ e = 0) :
    days_before_year (a * 400 + b * 100 + c * 4 + e) + 366 =
      a * 146097 + b * 36524 + c * 1461 + e * 365 + 1 ∧
    is_leap (a * 400 + b * 100 + c * 4 + e) = true := by
  simp only [days_before_year, is_leap, Bool.and_eq_true, beq_iff_eq, Bool.or_eq_true,
    bne_iff_ne, decide_eq_true_eq]
  omega

/-- The leap flag computed by the ordinal decomposition agrees with
is_leap on the decomposed year. -/
theorem leap_iff (a b c e : Int) (hb : 0 ≤ b ∧ b ≤ 3) (hc : 0 ≤ c ∧ c ≤ 24)
    (he : 0 ≤ e ∧ e ≤ 3) :
    (is_leap (a * 400 + b * 100 + c * 4 + e + 1) = true) ↔ (e = 3 ∧ (c ≠ 24 ∨ b = 3)) := by
  simp only [is_leap, Bool.and_eq_true, beq_iff_eq, Bool.or_eq_true,
    bne_iff_ne, decide_eq_true_eq, ne_eq]
  omega

set_option maxHeartbeats 1000000 in
/-- Round trip and validity of the calendar conversion: converting an
ordinal to (year, month, day) and back is the identity, and the produced
month and day are within range for the produced year. -/
theorem ord2ymd_correct (n y m d : Int) (h : ord2ymd n = (y, m, d)) :
    ymd2ord y m d = n ∧ 1 ≤ m ∧ m ≤ 12 ∧ 1 ≤ d ∧
      d ≤ days_in_month_nonleap m + (if m = 2 ∧ is_leap y then 1 else 0) := by
  simp only [ord2ymd] at h
  set n400 := (n - 1) / 146097 with hn400
  set r1 := (n - 1) % 146097 with hr1
  set n100 := r1 / 36524 with hn100
  set r2 := r1 % 36524 with hr2
  set n4 := r2 / 1461 with hn4
  set r3 := r2 % 1461 with hr3
  set n1 := r3 / 365 with hn1
  set r4 := r3 % 365 with hr4
  split_ifs at h with hdec hlp
  · simp only [Prod.mk.injEq] at h
    obtain ⟨h1, h2, h3⟩ := h
    subst h1 h2 h3
    have hyx : n400 * 400 + n100 * 100 + n4 * 4 + n1 + 1 - 1 =
        n400 * 400 + n100 * 100 + n4 * 4 + n1 := by ring
    obtain ⟨HD1, HD2⟩ := dby_cascade_dec n400 n100 n4 n1 (by omega) (by omega) (by omega)
      hdec (by omega) (by omega)
    simp only [ymd2ord, hyx, HD2, and_true]
    simp only [days_before_month, days_in_month_nonleap]
    split_ifs <;> omega
  · simp only [Prod.mk.injEq] at h
    obtain ⟨h1, h2, h3⟩ := h
    subst h1 h2 h3
    obtain ⟨HM1, HM2, HM3, HM4, HM5⟩ := monthsel_correct r4 1 (monthsel r4 1).1
      (monthsel r4 1).2 (by omega) (by omega) (Or.inr rfl) rfl
    have HY := dby_cascade n400 n100 n4 n1 (by omega) (by omega) (by omega)
    have HL := (leap_iff n400 n100 n4 n1 (by omega) (by omega) (by omega)).2 hlp
    simp only [ymd2ord, HY, HL, eq_self_iff_true, and_true]
    split_ifs at HM1 HM5 ⊢ <;> omega
  · simp only [Prod.mk.injEq] at h
    obtain ⟨h1, h2, h3⟩ := h
    subst h1 h2 h3
    obtain ⟨HM1, HM2, HM3, HM4, HM5⟩ := monthsel_correct r4 0 (monthsel r4 0).1
      (monthsel r4 0).2 (by omega) (by omega) (Or.inl rfl) rfl
    have HY := dby_cascade n400 n100 n4 n1 (by omega) (by omega) (by omega)
    have HL : is_leap (n400 * 400 + n100 * 100 + n4 * 4 + n1 + 1) = false := by
      have hiff := leap_iff n400 n100 n4 n1 (by omega) (by omega) (by omega)
      revert hiff
      cases is_leap (n400 * 400 + n100 * 100 + n4 * 4 + n1 + 1) <;> simp <;> tauto
    simp only [ymd2ord, HY, HL, Bool.false_eq_true, and_false, if_false]
    split_ifs at HM1 HM5 ⊢ <;> omega

/-- Model of a Python datetime value: the toordinal day number plus the
time-of-day fields that datetime.replace manipulates in app.py.  Adding a
timedelta of whole days changes only the ordinal.  Python restricts the
ordinal to the years 1..9999; the model leaves it unbounded, agreeing with
Python on every representable date. -/
structure PyDateTime where
  ord : Int
  hour : Int
  minute : Int
  second : Int
  microsecond : Int
deriving DecidableEq

/-- d + timedelta(days = k), also covering subtraction via negative k. -/
def addDays (d : PyDateTime) (k : Int) : PyDateTime :=
  { d with ord := d.ord + k }

/-- d.replace(hour=0, minute=0, second=0, microsecond=0), the
normalization used throughout app.py. -/
def replaceMidnight (d : PyDateTime) : PyDateTime :=
  { d with hour := 0, minute := 0, second := 0, microsecond := 0 }

/-- d.weekday(): 0 = Monday .. 6 = Sunday.  Ordinal 1 (January 1 of
year 1) is a Monday, so the weekday of an ordinal n is (n + 6) mod 7. -/
def pyWeekday (d : PyDateTime) : Int := (d.ord + 6) % 7

/-- datetime(year, month, day): midnight of the given calendar day. -/
def mkDatetime (y m day : Int) : PyDateTime := ⟨ymd2ord y m day, 0, 0, 0, 0⟩

/-- d.year of a modelled datetime. -/
def dateYear (d : PyDateTime) : Int := (ord2ymd d.ord).1

/-- d.month of a modelled datetime. -/
def dateMonth (d : PyDateTime) : Int := (ord2ymd d.ord).2.1

/-- d.day of a modelled datetime. -/
def dateDay (d : PyDateTime) : Int := (ord2ymd d.ord).2.2

example : pyWeekday (mkDatetime 2024 8 10) = 5 := by decide
example : pyWeekday (mkDatetime 2024 8 12) = 0 := by decide
example : dateYear (mkDatetime 2024 8 10) = 2024 ∧ dateMonth (mkDatetime 2024 8 10) = 8 ∧
    dateDay (mkDatetime 2024 8 10) = 10 := by decide

/-- First session is 19 days before race (app.py). -/
def PROTOCOL1_BOUT_START_DAYS_OUT : Int := 19

/-- Ten consecutive bout days (app.py). -/
def PROTOCOL1_BOUT_DAYS : Nat := 10

/-- Maintenance sessions 7 and 5 days before race (app.py). -/
def PROTOCOL1_MAINTENANCE_DAYS : List Int := [7, 5]

/-- protocol1_sessions from app.py: bout is 10 consecutive days starting
19 days before the race; maintenance is the days 7 and 5 days before the
race.  Returns (bout, maintenance). -/
def protocol1_sessions (race_date : PyDateTime) :
    List PyDateTime × List PyDateTime :=
  let first_day := addDays race_date (-PROTOCOL1_BOUT_START_DAYS_OUT)
  let bout := (List.range PROTOCOL1_BOUT_DAYS).map (fun i => addDays first_day (Int.ofNat i))
  let maintenance := PROTOCOL1_MAINTENANCE_DAYS.map (fun dd => addDays race_date (-dd))
  (bout, maintenance)

/-- Day offsets of the eleven bout-1 sessions inside their 14-day block
(app.py, bout1_offsets). -/
def bout1_offsets : List Int := [0, 1, 3, 4, 5, 7, 8, 10, 11, 12, 13]

/-- protocol2_sessions from app.py.  The race date is normalized; the
pattern is shifted by offset = weekday(race) - 5 (the cheat sheet is
anchored on a Saturday race).  Bout 1 hangs off the Monday of the week
containing race - 42 days; each maintenance week hangs off the Monday of
the week containing race - weeks_out * 7 days, with sessions at day 2 and
day 5 of the shifted block; bout 2 is anchored directly to the race date.
The maintenance for-loop that appends two sessions per weeks_out in
[4, 3, 2] is rendered as a flatMap.  Returns (bout1, maintenance, bout2). -/
def protocol2_sessions (race_date : PyDateTime) :
    List PyDateTime × List PyDateTime × List PyDateTime :=
  let race_norm := replaceMidnight race_date
  let offset := pyWeekday race_norm - 5
  let monday_6w := addDays (addDays race_norm (-42))
    (-(pyWeekday (addDays race_norm (-42))))
  let block_start := addDays monday_6w offset
  let bout1 := bout1_offsets.map (fun i => addDays block_start i)
  let maintenance := ([4, 3, 2] : List Int).flatMap (fun weeks_out =>
    let week_center := addDays race_norm (-(weeks_out * 7))
    let monday_of_week := addDays week_center (-(pyWeekday week_center))
    let block_start_m := addDays monday_of_week offset
    [addDays block_start_m 2, addDays block_start_m 5])
  let bout2_week1 := ([12, 11, 9, 8, 7, 6] : List Int).map (fun dd => addDays race_norm (-dd))
  let bout2_week2 := ([5, 4, 2] : List Int).map (fun dd => addDays race_norm (-dd))
  (bout1, maintenance, bout2_week1 ++ bout2_week2)

/-- sessions_to_set from app.py: normalize to date-only for membership
tests.  The Python set is modelled as a Finset. -/
def sessions_to_set (sessions : List PyDateTime) : Finset PyDateTime :=
  (sessions.map replaceMidnight).toFinset

/-- Monday of the week containing d: d minus its weekday.  This is the
Monday computation pattern used twice in protocol2_sessions. -/
def mondayOfWeek (d : PyDateTime) : PyDateTime := addDays d (-(pyWeekday d))

/-- The weekday arithmetic of protocol2_sessions collapses to fixed
offsets from the normalized race date: subtracting a multiple of 7 does
not change the weekday, so each shifted Monday anchor lands a fixed
distance before the race. -/
theorem protocol2_sessions_eq (R : PyDateTime) :
    protocol2_sessions R =
      (([-47, -46, -44, -43, -42, -40, -39, -37, -36, -35, -34] : List Int).map
          (fun k => addDays (replaceMidnight R) k),
       ([-31, -28, -24, -21, -17, -14] : List Int).map
          (fun k => addDays (replaceMidnight R) k),
       ([-12, -11, -9, -8, -7, -6, -5, -4, -2] : List Int).map
          (fun k => addDays (replaceMidnight R) k)) := by
  simp only [protocol2_sessions, bout1_offsets, addDays, replaceMidnight, pyWeekday,
    List.flatMap_cons, List.flatMap_nil, List.map_cons, List.map_nil, List.append_nil,
    List.cons_append, List.nil_append, Prod.mk.injEq, List.cons.injEq,
    PyDateTime.mk.injEq, and_true, true_and]
  omega

/-- Closed form of protocol1_sessions: ten bout days and two maintenance
days at fixed offsets from the race date. -/
theorem protocol1_sessions_eq (R : PyDateTime) :
    protocol1_sessions R =
      (([-19, -18, -17, -16, -15, -14, -13, -12, -11, -10] : List Int).map (addDays R),
       ([-7, -5] : List Int).map (addDays R)) := by
  have hr : List.range PROTOCOL1_BOUT_DAYS = [0, 1, 2, 3, 4, 5, 6, 7, 8, 9] := by decide
  simp only [protocol1_sessions, PROTOCOL1_BOUT_START_DAYS_OUT, PROTOCOL1_MAINTENANCE_DAYS,
    hr, addDays, List.map_cons, List.map_nil, Prod.mk.injEq, List.cons.injEq,
    PyDateTime.mk.injEq, and_true, true_and]
  push_cast
  omega

/-- C1: for every race date R, protocol1_sessions returns the bout list
R-19, R-18, ..., R-10 (exactly ten consecutive calendar dates ending at
R-10), the maintenance list [R-7, R-5], and these twelve dates are
pairwise distinct, so bout and maintenance do not overlap. -/
theorem protocol1_schedule_correct (R : PyDateTime) :
    (protocol1_sessions R).1 =
      ([-19, -18, -17, -16, -15, -14, -13, -12, -11, -10] : List Int).map (addDays R) ∧
    (protocol1_sessions R).2 = [addDays R (-7), addDays R (-5)] ∧
    ((protocol1_sessions R).1 ++ (protocol1_sessions R).2).Nodup := by
  rw [protocol1_sessions_eq R]
  refine ⟨rfl, by simp, ?_⟩
  simp only [List.map_cons, List.map_nil, List.cons_append, List.nil_append,
    List.nodup_cons, List.mem_cons, List.not_mem_nil, List.nodup_nil,
    addDays, PyDateTime.mk.injEq, ne_eq, not_or, or_false, and_true,
    not_false_eq_true]
  omega

/-- C9: the Monday-of-week-plus-offset construction in protocol2_sessions
equals fixed absolute offsets from the race date, independent of its
weekday: bout1 is R-47, R-46, R-44, R-43, R-42, R-40, R-39, R-37, R-36,
R-35, R-34 and maintenance is R-31, R-28, R-24, R-21, R-17, R-14. -/
theorem protocol2_fixed_offsets (R : PyDateTime) :
    (protocol2_sessions R).1 =
      ([-47, -46, -44, -43, -42, -40, -39, -37, -36, -35, -34] : List Int).map
        (fun k => addDays (replaceMidnight R) k) ∧
    (protocol2_sessions R).2.1 =
      ([-31, -28, -24, -21, -17, -14] : List Int).map
        (fun k => addDays (replaceMidnight R) k) := by
  rw [protocol2_sessions_eq R]
  exact ⟨rfl, rfl⟩

/-- C2: for every race date R, bout1 of protocol2_sessions is the eleven
dates obtained by adding the offsets 0, 1, 3, 4, 5, 7, 8, 10, 11, 12, 13
to the anchor (the Monday of the week containing R - 42 days, shifted by
weekday(R) - 5), and the eleven dates span a 14-day window: last minus
first is 13 days. -/
theorem protocol2_bout1_correct (R : PyDateTime) :
    (protocol2_sessions R).1 =
      bout1_offsets.map (fun i =>
        addDays (addDays (mondayOfWeek (addDays (replaceMidnight R) (-42)))
          (pyWeekday R - 5)) i) ∧
    (protocol2_sessions R).1.length = 11 ∧
    ∃ a b, (protocol2_sessions R).1.head? = some a ∧
      (protocol2_sessions R).1.getLast? = some b ∧ b.ord - a.ord = 13 := by
  rw [protocol2_sessions_eq R]
  refine ⟨?_, by simp, ?_⟩
  · simp only [bout1_offsets, mondayOfWeek, addDays, pyWeekday, replaceMidnight,
      List.map_cons, List.map_nil, List.cons.injEq, PyDateTime.mk.injEq,
      and_true, true_and]
    omega
  · refine ⟨addDays (replaceMidnight R) (-47), addDays (replaceMidnight R) (-34),
      by simp, by simp, ?_⟩
    simp [addDays]

/-- C4: for every race date R, bout2 of protocol2_sessions is anchored
directly to the race date with no weekday shift: it has exactly nine
dates, the first six being R-12, R-11, R-9, R-8, R-7, R-6 and the last
three exactly R-5, R-4, R-2. -/
theorem protocol2_bout2_correct (R : PyDateTime) :
    (protocol2_sessions R).2.2 =
      ([12, 11, 9, 8, 7, 6] : List Int).map (fun dd => addDays (replaceMidnight R) (-dd)) ++
        ([5, 4, 2] : List Int).map (fun dd => addDays (replaceMidnight R) (-dd)) ∧
    (protocol2_sessions R).2.2.length = 9 ∧
    (protocol2_sessions R).2.2.take 6 =
      ([12, 11, 9, 8, 7, 6] : List Int).map (fun dd => addDays (replaceMidnight R) (-dd)) ∧
    (protocol2_sessions R).2.2.drop 6 =
      [addDays (replaceMidnight R) (-5), addDays (replaceMidnight R) (-4),
        addDays (replaceMidnight R) (-2)] := by
  rw [protocol2_sessions_eq R]
  refine ⟨?_, by simp, ?_, ?_⟩ <;>
    simp only [addDays, replaceMidnight, List.map_cons, List.map_nil, List.cons_append,
      List.nil_append, List.take, List.drop, List.cons.injEq, PyDateTime.mk.injEq,
      and_true, true_and]

/-- C8: for a race date on the reference weekday (Saturday, weekday 5),
the weekday offset is 0 and the bout1 and maintenance anchors of
protocol2_sessions equal the unshifted Monday-of-week computations. -/
theorem protocol2_saturday_alignment (R : PyDateTime) (h : pyWeekday R = 5) :
    pyWeekday R - 5 = 0 ∧
    (protocol2_sessions R).1 =
      bout1_offsets.map (fun i =>
        addDays (mondayOfWeek (addDays (replaceMidnight R) (-42))) i) ∧
    (protocol2_sessions R).2.1 =
      ([4, 3, 2] : List Int).flatMap (fun w =>
        [addDays (mondayOfWeek (addDays (replaceMidnight R) (-(w * 7)))) 2,
         addDays (mondayOfWeek (addDays (replaceMidnight R) (-(w * 7)))) 5]) := by
  simp only [pyWeekday] at h
  refine ⟨by simp [pyWeekday]; omega, ?_, ?_⟩ <;>
    (rw [protocol2_sessions_eq R]
     simp only [bout1_offsets, mondayOfWeek, addDays, pyWeekday, replaceMidnight,
       List.flatMap_cons, List.flatMap_nil, List.map_cons, List.map_nil,
       List.cons_append, List.nil_append, List.append_nil, List.cons.injEq,
       PyDateTime.mk.injEq, and_true, true_and]
     omega)

/-- Witness for C8 at the Saturday race date 2024-08-10 (ordinal 739108). -/
theorem protocol2_saturday_alignment_witness :
    pyWeekday (PyDateTime.mk 739108 0 0 0 0) = 5 ∧
    (pyWeekday (PyDateTime.mk 739108 0 0 0 0) - 5 = 0 ∧
    (protocol2_sessions (PyDateTime.mk 739108 0 0 0 0)).1 =
      bout1_offsets.map (fun i =>
        addDays (mondayOfWeek (addDays (replaceMidnight (PyDateTime.mk 739108 0 0 0 0)) (-42))) i) ∧
    (protocol2_sessions (PyDateTime.mk 739108 0 0 0 0)).2.1 =
      ([4, 3, 2] : List Int).flatMap (fun w =>
        [addDays (mondayOfWeek (addDays (replaceMidnight (PyDateTime.mk 739108 0 0 0 0)) (-(w * 7)))) 2,
         addDays (mondayOfWeek (addDays (replaceMidnight (PyDateTime.mk 739108 0 0 0 0)) (-(w * 7)))) 5])) :=
  ⟨by decide, protocol2_saturday_alignment (PyDateTime.mk 739108 0 0 0 0) (by decide)⟩

/-- Membership in the normalized set of a list of day offsets from a base
date: exactly the midnight dates at those offsets from the base ordinal. -/
theorem mem_sessions_to_set_map (d0 : PyDateTime) (L : List Int) (x : PyDateTime) :
    x ∈ sessions_to_set (L.map (fun k => addDays d0 k)) ↔
      ∃ k ∈ L, x = PyDateTime.mk (d0.ord + k) 0 0 0 0 := by
  simp only [sessions_to_set, List.map_map, List.mem_toFinset, List.mem_map,
    Function.comp, addDays, replaceMidnight]
  constructor
  · rintro ⟨k, hk, rfl⟩
    exact ⟨k, hk, rfl⟩
  · rintro ⟨k, hk, rfl⟩
    exact ⟨k, hk, rfl⟩

/-- C7: the normalized per-category sets are pairwise disjoint and none of
them contains the normalized race date, for both protocols: every
scheduled date is in exactly one category set. -/
theorem category_sets_disjoint (R : PyDateTime) :
    Disjoint (sessions_to_set (protocol1_sessions R).1)
      (sessions_to_set (protocol1_sessions R).2) ∧
    replaceMidnight R ∉ sessions_to_set (protocol1_sessions R).1 ∧
    replaceMidnight R ∉ sessions_to_set (protocol1_sessions R).2 ∧
    Disjoint (sessions_to_set (protocol2_sessions R).1)
      (sessions_to_set (protocol2_sessions R).2.1) ∧
    Disjoint (sessions_to_set (protocol2_sessions R).1)
      (sessions_to_set (protocol2_sessions R).2.2) ∧
    Disjoint (sessions_to_set (protocol2_sessions R).2.1)
      (sessions_to_set (protocol2_sessions R).2.2) ∧
    replaceMidnight R ∉ sessions_to_set (protocol2_sessions R).1 ∧
    replaceMidnight R ∉ sessions_to_set (protocol2_sessions R).2.1 ∧
    replaceMidnight R ∉ sessions_to_set (protocol2_sessions R).2.2 := by
  rw [protocol1_sessions_eq R, protocol2_sessions_eq R]
  refine ⟨?_, ?_, ?_, ?_, ?_, ?_, ?_, ?_, ?_⟩ <;>
    [skip; skip; skip; skip; skip; skip; skip; skip; skip] <;>
    first
    | (rw [Finset.disjoint_left]
       rintro a h1 h2
       rw [mem_sessions_to_set_map] at h1 h2
       obtain ⟨k1, hk1, rfl⟩ := h1
       obtain ⟨k2, hk2, heq⟩ := h2
       simp only [List.mem_cons, List.not_mem_nil, or_false, replaceMidnight,
         PyDateTime.mk.injEq, and_true, true_and] at hk1 hk2 heq
       omega)
    | (intro hmem
       rw [mem_sessions_to_set_map] at hmem
       obtain ⟨k, hk, heq⟩ := hmem
       simp only [List.mem_cons, List.not_mem_nil, or_false, replaceMidnight,
         PyDateTime.mk.injEq, and_true, true_and] at hk heq
       omega)

/-- C10: normalization is idempotent on session sets, and two datetimes
normalize to the same value exactly when they are the same calendar day
(same year, month and day), regardless of time-of-day components. -/
theorem sessions_to_set_idempotent_and_day_eq :
    (∀ xs : List PyDateTime,
      sessions_to_set (sessions_to_set xs).toList = sessions_to_set xs) ∧
    (∀ a b : PyDateTime, replaceMidnight a = replaceMidnight b ↔
      (dateYear a = dateYear b ∧ dateMonth a = dateMonth b ∧ dateDay a = dateDay b)) := by
  constructor
  · intro xs
    unfold sessions_to_set
    have hnorm : ∀ x ∈ (List.map replaceMidnight xs).toFinset.toList,
        replaceMidnight x = x := by
      intro x hx
      rw [Finset.mem_toList, List.mem_toFinset] at hx
      obtain ⟨d, _, rfl⟩ := List.mem_map.mp hx
      rfl
    rw [List.map_congr_left hnorm]
    simp
  · intro a b
    constructor
    · intro h
      have hord : a.ord = b.ord := by
        simpa only [replaceMidnight, PyDateTime.mk.injEq, and_true] using h
      simp [dateYear, dateMonth, dateDay, hord]
    · rintro ⟨h1, h2, h3⟩
      have Ha := (ord2ymd_correct a.ord (dateYear a) (dateMonth a) (dateDay a) rfl).1
      have Hb := (ord2ymd_correct b.ord (dateYear b) (dateMonth b) (dateDay b) rfl).1
      have hord : a.ord = b.ord := by rw [← Ha, ← Hb, h1, h2, h3]
      simp only [replaceMidnight, PyDateTime.mk.injEq, and_true]
      exact hord

/-- Monday-based calendar week index of a date: two dates have the same
index exactly when they fall in the same Monday-through-Sunday calendar
week (ordinal 1 is a Monday, so week boundaries sit at ordinals that are
1 modulo 7). -/
def mondayWeekIndex (d : PyDateTime) : Int := (d.ord + 6) / 7

/-- C3 counterexample: for the Monday race date 2024-08-12 (ordinal
739110), the six maintenance dates of protocol 2 fall in four distinct
Monday-based calendar weeks, not three. -/
theorem protocol2_maintenance_weeks_counterexample :
    pyWeekday (PyDateTime.mk 739110 0 0 0 0) = 0 ∧
    ¬ ((((protocol2_sessions (PyDateTime.mk 739110 0 0 0 0)).2.1.map
        mondayWeekIndex).toFinset.card) = 3) ∧
    (((protocol2_sessions (PyDateTime.mk 739110 0 0 0 0)).2.1.map
        mondayWeekIndex).toFinset.card) = 4 := by decide

set_option maxHeartbeats 1000000 in
/-- C3 (amended): for every race date R, the maintenance list of protocol
2 is, for weeks_out 4, 3, 2 in that order, the two dates anchor+2 and
anchor+5 where anchor is the Monday of the week containing
R - weeks_out*7 days shifted by weekday(R) - 5; the six dates fall in
three distinct Monday-based calendar weeks when the race weekday is
Thursday through Sunday (weekday at least 3), and in four distinct weeks
when it is Monday, Tuesday or Wednesday. -/
theorem protocol2_maintenance_correct (R : PyDateTime) :
    (protocol2_sessions R).2.1 =
      ([4, 3, 2] : List Int).flatMap (fun w =>
        [addDays (addDays (mondayOfWeek (addDays (replaceMidnight R) (-(w * 7))))
           (pyWeekday R - 5)) 2,
         addDays (addDays (mondayOfWeek (addDays (replaceMidnight R) (-(w * 7))))
           (pyWeekday R - 5)) 5]) ∧
    (protocol2_sessions R).2.1.length = 6 ∧
    ((protocol2_sessions R).2.1.map mondayWeekIndex).toFinset.card =
      (if 3 ≤ pyWeekday R then 3 else 4) := by
  rw [protocol2_sessions_eq R]
  refine ⟨?_, by simp, ?_⟩
  · simp only [mondayOfWeek, addDays, pyWeekday, replaceMidnight,
      List.flatMap_cons, List.flatMap_nil, List.map_cons, List.map_nil,
      List.cons_append, List.nil_append, List.append_nil, List.cons.injEq,
      PyDateTime.mk.injEq, and_true, true_and]
    omega
  · simp only [List.map_cons, List.map_nil, mondayWeekIndex, addDays, replaceMidnight,
      List.toFinset_cons, List.toFinset_nil]
    by_cases hw : 3 ≤ pyWeekday R
    · rw [if_pos hw]
      simp only [pyWeekday] at hw
      have e1 : (R.ord + -31 + 6) / 7 = (R.ord + -28 + 6) / 7 := by omega
      have e2 : (R.ord + -24 + 6) / 7 = (R.ord + -21 + 6) / 7 := by omega
      have e3 : (R.ord + -17 + 6) / 7 = (R.ord + -14 + 6) / 7 := by omega
      rw [e1, e2, e3, Finset.insert_idem, Finset.insert_idem, Finset.insert_idem]
      rw [Finset.card_insert_of_not_mem (by simp; omega),
        Finset.card_insert_of_not_mem (by simp; omega)]
      simp
    · rw [if_neg hw]
      simp only [pyWeekday, not_le] at hw
      have e1 : (R.ord + -28 + 6) / 7 = (R.ord + -24 + 6) / 7 := by omega
      have e2 : (R.ord + -21 + 6) / 7 = (R.ord + -17 + 6) / 7 := by omega
      rw [e1, e2, Finset.insert_idem, Finset.insert_idem]
      rw [Finset.card_insert_of_not_mem (by simp; omega),
        Finset.card_insert_of_not_mem (by simp; omega),
        Finset.card_insert_of_not_mem (by simp; omega)]
      simp

/-- Cell categories used by the calendar grids of app.py; the source uses
the strings race, bout, maintenance, bout1, bout2. -/
inductive Category where
  | race
  | bout
  | maintenance
  | bout1
  | bout2
deriving DecidableEq

/-- Split a flat list of day cells into weeks of seven, as
calendar.monthcalendar does (the last chunk keeps whatever remains when
fewer than seven cells are left; monthcalendar always passes a multiple
of seven). -/
def chunk7 : List Int → List (List Int)
  | [] => []
  | a1 :: a2 :: a3 :: a4 :: a5 :: a6 :: a7 :: rest =>
      [a1, a2, a3, a4, a5, a6, a7] :: chunk7 rest
  | xs => [xs]

/-- calendar.monthcalendar(year, month) with weeks starting on Monday
(the default firstweekday = 0): the days of the month in order, preceded
by one zero per leading out-of-month cell (the weekday index of the
first) and padded with zeros to a multiple of seven, split into weeks. -/
def monthcalendar (y m : Int) : List (List Int) :=
  let w0 := (ymd2ord y m 1 + 6) % 7
  let nd := days_in_month y m
  chunk7 (List.replicate w0.toNat 0 ++
    (List.range nd.toNat).map (fun i => Int.ofNat i + 1) ++
    List.replicate ((7 - (w0 + nd) % 7) % 7).toNat 0)

example : monthcalendar 2024 8 =
    [[0, 0, 0, 1, 2, 3, 4], [5, 6, 7, 8, 9, 10, 11], [12, 13, 14, 15, 16, 17, 18],
     [19, 20, 21, 22, 23, 24, 25], [26, 27, 28, 29, 30, 31, 0]] := by decide

/-- month_calendar_data_protocol1 from app.py: for each week of the month
grid, each day cell becomes (day number, category); day 0 cells (outside
the month) become (none, none); an in-month day is categorized race if it
equals the normalized race date, else bout, else maintenance, by first
match, else no category. -/
def month_calendar_data_protocol1 (year month : Int)
    (bout_set maint_set : Finset PyDateTime) (race_date : Option PyDateTime) :
    List (List (Option Int × Option Category)) :=
  let race_norm := race_date.map replaceMidnight
  (monthcalendar year month).map (fun week =>
    week.map (fun day =>
      if day = 0 then (none, none)
      else
        let d_norm := replaceMidnight (mkDatetime year month day)
        if race_norm = some d_norm then (some day, some Category.race)
        else if d_norm ∈ bout_set then (some day, some Category.bout)
        else if d_norm ∈ maint_set then (some day, some Category.maintenance)
        else (some day, none)))

/-- month_calendar_data_protocol2 from app.py: as for protocol 1, with
precedence race, bout1, maintenance, bout2. -/
def month_calendar_data_protocol2 (year month : Int)
    (bout1_set maint_set bout2_set : Finset PyDateTime)
    (race_date : Option PyDateTime) :
    List (List (Option Int × Option Category)) :=
  let race_norm := race_date.map replaceMidnight
  (monthcalendar year month).map (fun week =>
    week.map (fun day =>
      if day = 0 then (none, none)
      else
        let d_norm := replaceMidnight (mkDatetime year month day)
        if race_norm = some d_norm then (some day, some Category.race)
        else if d_norm ∈ bout1_set then (some day, some Category.bout1)
        else if d_norm ∈ maint_set then (some day, some Category.maintenance)
        else if d_norm ∈ bout2_set then (some day, some Category.bout2)
        else (some day, none)))

/-- months_to_show from app.py: the distinct (year, month) pairs touched
by the normalized session dates plus the race date, sorted ascending.
The two Python sets (of normalized dates, then of month pairs) are
modelled by dedup; sorted(...) on pairs is a lexicographic merge sort. -/
def months_to_show (dates : List PyDateTime) (race_date : PyDateTime) :
    List (Int × Int) :=
  let all_d := (replaceMidnight race_date :: dates.map replaceMidnight).dedup
  ((all_d.map (fun d => (dateYear d, dateMonth d))).dedup).mergeSort
    (fun a b => decide (a.1 < b.1) || (a.1 == b.1 && decide (a.2 ≤ b.2)))

/-- The grid-building loop of the index view for protocol 1: one
(year, month, grid) triple per month of months_to_show, computed over
bout + maintenance and the race date. -/
def protocol1_calendar_months (race_date : PyDateTime) :
    List (Int × Int × List (List (Option Int × Option Category))) :=
  let p := protocol1_sessions race_date
  (months_to_show (p.1 ++ p.2) race_date).map (fun ym =>
    (ym.1, ym.2, month_calendar_data_protocol1 ym.1 ym.2
      (sessions_to_set p.1) (sessions_to_set p.2) (some race_date)))

/-- The grid-building loop of the index view for protocol 2: one
(year, month, grid) triple per month of months_to_show, computed over
bout1 + maintenance + bout2 and the race date. -/
def protocol2_calendar_months (race_date : PyDateTime) :
    List (Int × Int × List (List (Option Int × Option Category))) :=
  let p := protocol2_sessions race_date
  (months_to_show (p.1 ++ p.2.1 ++ p.2.2) race_date).map (fun ym =>
    (ym.1, ym.2, month_calendar_data_protocol2 ym.1 ym.2
      (sessions_to_set p.1) (sessions_to_set p.2.1) (sessions_to_set p.2.2)
      (some race_date)))

/-- Precedence-resolved category of a normalized day for protocol 1, as
stated by the spec: race day first, then bout, then maintenance, else no
category. -/
def resolveCategory1 (bout_set maint_set : Finset PyDateTime)
    (race_norm dnorm : PyDateTime) : Option Category :=
  if dnorm = race_norm then some Category.race
  else if dnorm ∈ bout_set then some Category.bout
  else if dnorm ∈ maint_set then some Category.maintenance
  else none

/-- Precedence-resolved category of a normalized day for protocol 2, as
stated by the spec: race day first, then bout1, then maintenance, then
bout2, else no category. -/
def resolveCategory2 (bout1_set maint_set bout2_set : Finset PyDateTime)
    (race_norm dnorm : PyDateTime) : Option Category :=
  if dnorm = race_norm then some Category.race
  else if dnorm ∈ bout1_set then some Category.bout1
  else if dnorm ∈ maint_set then some Category.maintenance
  else if dnorm ∈ bout2_set then some Category.bout2
  else none

/-- Every element of a list lands in one of its chunks of seven. -/
theorem mem_chunk7 (xs : List Int) (x : Int) (hx : x ∈ xs) :
    ∃ w ∈ chunk7 xs, x ∈ w := by
  induction xs using chunk7.induct with
  | case1 => simp at hx
  | case2 a1 a2 a3 a4 a5 a6 a7 rest ih =>
    simp only [List.mem_cons] at hx
    rw [chunk7]
    rcases hx with rfl | rfl | rfl | rfl | rfl | rfl | rfl | hx
    · exact ⟨[x, a2, a3, a4, a5, a6, a7], List.mem_cons_self _ _, by simp⟩
    · exact ⟨[a1, x, a3, a4, a5, a6, a7], List.mem_cons_self _ _, by simp⟩
    · exact ⟨[a1, a2, x, a4, a5, a6, a7], List.mem_cons_self _ _, by simp⟩
    · exact ⟨[a1, a2, a3, x, a5, a6, a7], List.mem_cons_self _ _, by simp⟩
    · exact ⟨[a1, a2, a3, a4, x, a6, a7], List.mem_cons_self _ _, by simp⟩
    · exact ⟨[a1, a2, a3, a4, a5, x, a7], List.mem_cons_self _ _, by simp⟩
    · exact ⟨[a1, a2, a3, a4, a5, a6, x], List.mem_cons_self _ _, by simp⟩
    · obtain ⟨w, hw, hxw⟩ := ih hx
      exact ⟨w, List.mem_cons_of_mem _ hw, hxw⟩
  | case3 xs h1 h2 =>
    exact ⟨xs, by rw [chunk7] <;> first | exact List.mem_cons_self _ _ | assumption, hx⟩

/-- Every valid day number of a month appears in some week row of its
month grid. -/
theorem mem_monthcalendar (y m k : Int) (h1 : 1 ≤ k) (h2 : k ≤ days_in_month y m) :
    ∃ w ∈ monthcalendar y m, k ∈ w := by
  apply mem_chunk7
  refine List.mem_append.mpr (Or.inl (List.mem_append.mpr (Or.inr ?_)))
  refine List.mem_map.mpr ⟨(k - 1).toNat, List.mem_range.mpr ?_, ?_⟩
  · omega
  · simp only [Int.ofNat_eq_natCast]
    omega

/-- The protocol-1 grid contains, for every in-month day k of a week row,
the cell (k, category) where the category is the precedence resolution of
the normalized day against the race date and the two session sets. -/
theorem cell_protocol1 (y m : Int) (bset mset : Finset PyDateTime) (r : PyDateTime)
    (w : List Int) (hw : w ∈ monthcalendar y m) (k : Int) (hk : k ∈ w) (hk0 : ¬ k = 0) :
    ∃ row ∈ month_calendar_data_protocol1 y m bset mset (some r),
      (some k, resolveCategory1 bset mset (replaceMidnight r)
        (replaceMidnight (mkDatetime y m k))) ∈ row := by
  simp only [month_calendar_data_protocol1]
  refine ⟨_, List.mem_map_of_mem _ hw, List.mem_map.mpr ⟨k, hk, ?_⟩⟩
  rw [if_neg hk0]
  by_cases hrace : replaceMidnight (mkDatetime y m k) = replaceMidnight r
  · have hcond : Option.map replaceMidnight (some r) =
        some (replaceMidnight (mkDatetime y m k)) := by rw [hrace]; rfl
    rw [if_pos hcond, resolveCategory1, if_pos hrace]
  · have hcond : ¬ (Option.map replaceMidnight (some r) =
        some (replaceMidnight (mkDatetime y m k))) :=
      fun hh => hrace (Option.some.inj hh).symm
    rw [if_neg hcond, resolveCategory1, if_neg hrace]
    split_ifs <;> rfl

/-- The protocol-2 grid contains, for every in-month day k of a week row,
the cell (k, category) where the category is the precedence resolution of
the normalized day against the race date and the three session sets. -/
theorem cell_protocol2 (y m : Int) (b1set mset b2set : Finset PyDateTime)
    (r : PyDateTime) (w : List Int) (hw : w ∈ monthcalendar y m) (k : Int)
    (hk : k ∈ w) (hk0 : ¬ k = 0) :
    ∃ row ∈ month_calendar_data_protocol2 y m b1set mset b2set (some r),
      (some k, resolveCategory2 b1set mset b2set (replaceMidnight r)
        (replaceMidnight (mkDatetime y m k))) ∈ row := by
  simp only [month_calendar_data_protocol2]
  refine ⟨_, List.mem_map_of_mem _ hw, List.mem_map.mpr ⟨k, hk, ?_⟩⟩
  rw [if_neg hk0]
  by_cases hrace : replaceMidnight (mkDatetime y m k) = replaceMidnight r
  · have hcond : Option.map replaceMidnight (some r) =
        some (replaceMidnight (mkDatetime y m k)) := by rw [hrace]; rfl
    rw [if_pos hcond, resolveCategory2, if_pos hrace]
  · have hcond : ¬ (Option.map replaceMidnight (some r) =
        some (replaceMidnight (mkDatetime y m k))) :=
      fun hh => hrace (Option.some.inj hh).symm
    rw [if_neg hcond, resolveCategory2, if_neg hrace]
    split_ifs <;> rfl

/-- C6: in every built month grid, with arbitrary category sets (synthetic
overlaps allowed) and a race date, every cell is either an empty
out-of-month cell or carries an in-month day number with the category
given by the fixed precedence: race if the day equals the race date (even
when it also lies in session sets), else the primary bout set, else
maintenance, else (protocol 2 only) bout2, else no category. -/
theorem grid_precedence (y m : Int) (r : PyDateTime) :
    (∀ bset mset : Finset PyDateTime,
      ∀ row ∈ month_calendar_data_protocol1 y m bset mset (some r), ∀ c ∈ row,
        c = (none, none) ∨
        ∃ day, ¬ day = 0 ∧ c = (some day, resolveCategory1 bset mset
          (replaceMidnight r) (replaceMidnight (mkDatetime y m day)))) ∧
    (∀ b1set mset b2set : Finset PyDateTime,
      ∀ row ∈ month_calendar_data_protocol2 y m b1set mset b2set (some r), ∀ c ∈ row,
        c = (none, none) ∨
        ∃ day, ¬ day = 0 ∧ c = (some day, resolveCategory2 b1set mset b2set
          (replaceMidnight r) (replaceMidnight (mkDatetime y m day)))) := by
  constructor
  · intro bset mset row hrow c hc
    simp only [month_calendar_data_protocol1] at hrow
    obtain ⟨w, hw, rfl⟩ := List.mem_map.mp hrow
    obtain ⟨k, hk, rfl⟩ := List.mem_map.mp hc
    by_cases hk0 : k = 0
    · left
      simp [hk0]
    · right
      refine ⟨k, hk0, ?_⟩
      rw [if_neg hk0]
      by_cases hrace : replaceMidnight (mkDatetime y m k) = replaceMidnight r
      · have hcond : Option.map replaceMidnight (some r) =
            some (replaceMidnight (mkDatetime y m k)) := by rw [hrace]; rfl
        rw [if_pos hcond, resolveCategory1, if_pos hrace]
      · have hcond : ¬ (Option.map replaceMidnight (some r) =
            some (replaceMidnight (mkDatetime y m k))) :=
          fun hh => hrace (Option.some.inj hh).symm
        rw [if_neg hcond, resolveCategory1, if_neg hrace]
        split_ifs <;> rfl
  · intro b1set mset b2set row hrow c hc
    simp only [month_calendar_data_protocol2] at hrow
    obtain ⟨w, hw, rfl⟩ := List.mem_map.mp hrow
    obtain ⟨k, hk, rfl⟩ := List.mem_map.mp hc
    by_cases hk0 : k = 0
    · left
      simp [hk0]
    · right
      refine ⟨k, hk0, ?_⟩
      rw [if_neg hk0]
      by_cases hrace : replaceMidnight (mkDatetime y m k) = replaceMidnight r
      · have hcond : Option.map replaceMidnight (some r) =
            some (replaceMidnight (mkDatetime y m k)) := by rw [hrace]; rfl
        rw [if_pos hcond, resolveCategory2, if_pos hrace]
      · have hcond : ¬ (Option.map replaceMidnight (some r) =
            some (replaceMidnight (mkDatetime y m k))) :=
          fun hh => hrace (Option.some.inj hh).symm
        rw [if_neg hcond, resolveCategory2, if_neg hrace]
        split_ifs <;> rfl

/-- Witness for C6, on the August 2024 grid with a synthetic overlap: day
5 placed in both the bout set and the maintenance set, race on August 10;
the cell for day 5 resolves by precedence. -/
theorem grid_precedence_witness :
    ((month_calendar_data_protocol1 2024 8 (sessions_to_set [mkDatetime 2024 8 5])
        (sessions_to_set [mkDatetime 2024 8 5]) (some (mkDatetime 2024 8 10))).getD 1
        []).getD 0 (none, none) = (none, none) ∨
    ∃ day, ¬ day = 0 ∧
      ((month_calendar_data_protocol1 2024 8 (sessions_to_set [mkDatetime 2024 8 5])
          (sessions_to_set [mkDatetime 2024 8 5]) (some (mkDatetime 2024 8 10))).getD 1
          []).getD 0 (none, none) =
        (some day, resolveCategory1 (sessions_to_set [mkDatetime 2024 8 5])
          (sessions_to_set [mkDatetime 2024 8 5])
          (replaceMidnight (mkDatetime 2024 8 10))
          (replaceMidnight (mkDatetime 2024 8 day))) :=
  (grid_precedence 2024 8 (mkDatetime 2024 8 10)).1
    (sessions_to_set [mkDatetime 2024 8 5]) (sessions_to_set [mkDatetime 2024 8 5])
    ((month_calendar_data_protocol1 2024 8 (sessions_to_set [mkDatetime 2024 8 5])
      (sessions_to_set [mkDatetime 2024 8 5]) (some (mkDatetime 2024 8 10))).getD 1 [])
    (by decide)
    (((month_calendar_data_protocol1 2024 8 (sessions_to_set [mkDatetime 2024 8 5])
      (sessions_to_set [mkDatetime 2024 8 5]) (some (mkDatetime 2024 8 10))).getD 1
      []).getD 0 (none, none))
    (by decide)

/-- Membership in months_to_show: exactly the (year, month) pairs of the
given dates or of the race date. -/
theorem mem_months_to_show (dates : List PyDateTime) (Rc : PyDateTime) (y m : Int) :
    (y, m) ∈ months_to_show dates Rc ↔
      ∃ d0, (d0 ∈ dates ∨ d0 = Rc) ∧ dateYear d0 = y ∧ dateMonth d0 = m := by
  simp only [months_to_show, List.mem_mergeSort, List.mem_dedup, List.mem_map,
    List.mem_cons, Prod.mk.injEq]
  constructor
  · rintro ⟨d, hd, heq1, heq2⟩
    rcases hd with rfl | ⟨d1, hd1, rfl⟩
    · exact ⟨Rc, Or.inr rfl, heq1, heq2⟩
    · exact ⟨d1, Or.inl hd1, heq1, heq2⟩
  · rintro ⟨d0, hd0, rfl, rfl⟩
    refine ⟨replaceMidnight d0, ?_, rfl, rfl⟩
    rcases hd0 with h | rfl
    · exact Or.inr ⟨d0, h, rfl⟩
    · exact Or.inl rfl

set_option maxHeartbeats 1000000 in
/-- C5: for every race date, the months for which a grid is built are
exactly the distinct months containing a session date of the protocol or
the race date, never more and never fewer; consequently every session
date and the race date appears as an in-month cell, with its correct
precedence-resolved category, in a grid of the built list. -/
theorem months_and_grid_completeness (R : PyDateTime) :
    (∀ y m : Int,
      (y, m) ∈ months_to_show ((protocol1_sessions R).1 ++ (protocol1_sessions R).2) R ↔
      ∃ d0, (d0 ∈ (protocol1_sessions R).1 ++ (protocol1_sessions R).2 ∨ d0 = R) ∧
        dateYear d0 = y ∧ dateMonth d0 = m) ∧
    (∀ d0, (d0 ∈ (protocol1_sessions R).1 ++ (protocol1_sessions R).2 ∨ d0 = R) →
      ∃ grid, (dateYear d0, dateMonth d0, grid) ∈ protocol1_calendar_months R ∧
        ∃ row ∈ grid, (some (dateDay d0),
          resolveCategory1 (sessions_to_set (protocol1_sessions R).1)
            (sessions_to_set (protocol1_sessions R).2) (replaceMidnight R)
            (replaceMidnight d0)) ∈ row) ∧
    (∀ y m : Int,
      (y, m) ∈ months_to_show ((protocol2_sessions R).1 ++ (protocol2_sessions R).2.1 ++
        (protocol2_sessions R).2.2) R ↔
      ∃ d0, (d0 ∈ (protocol2_sessions R).1 ++ (protocol2_sessions R).2.1 ++
        (protocol2_sessions R).2.2 ∨ d0 = R) ∧ dateYear d0 = y ∧ dateMonth d0 = m) ∧
    (∀ d0, (d0 ∈ (protocol2_sessions R).1 ++ (protocol2_sessions R).2.1 ++
        (protocol2_sessions R).2.2 ∨ d0 = R) →
      ∃ grid, (dateYear d0, dateMonth d0, grid) ∈ protocol2_calendar_months R ∧
        ∃ row ∈ grid, (some (dateDay d0),
          resolveCategory2 (sessions_to_set (protocol2_sessions R).1)
            (sessions_to_set (protocol2_sessions R).2.1)
            (sessions_to_set (protocol2_sessions R).2.2) (replaceMidnight R)
            (replaceMidnight d0)) ∈ row) := by
  refine ⟨fun y m => mem_months_to_show _ R y m, ?_, fun y m => mem_months_to_show _ R y m, ?_⟩
  · intro d0 hd0
    obtain ⟨Hord, Hm1, Hm2, Hd1, Hd2⟩ :=
      ord2ymd_correct d0.ord (dateYear d0) (dateMonth d0) (dateDay d0) rfl
    obtain ⟨w, hw, hkw⟩ := mem_monthcalendar (dateYear d0) (dateMonth d0) (dateDay d0) Hd1 Hd2
    obtain ⟨row, hrow, hcell⟩ := cell_protocol1 (dateYear d0) (dateMonth d0)
      (sessions_to_set (protocol1_sessions R).1) (sessions_to_set (protocol1_sessions R).2)
      R w hw (dateDay d0) hkw (by omega)
    have hnorm : replaceMidnight (mkDatetime (dateYear d0) (dateMonth d0) (dateDay d0)) =
        replaceMidnight d0 := by
      simp only [mkDatetime, replaceMidnight, PyDateTime.mk.injEq, and_true]
      exact Hord
    rw [hnorm] at hcell
    have hmts : (dateYear d0, dateMonth d0) ∈
        months_to_show ((protocol1_sessions R).1 ++ (protocol1_sessions R).2) R :=
      (mem_months_to_show _ R _ _).mpr ⟨d0, hd0, rfl, rfl⟩
    refine ⟨_, ?_, ⟨row, hrow, hcell⟩⟩
    simp only [protocol1_calendar_months]
    exact List.mem_map.mpr ⟨(dateYear d0, dateMonth d0), hmts, rfl⟩
  · intro d0 hd0
    obtain ⟨Hord, Hm1, Hm2, Hd1, Hd2⟩ :=
      ord2ymd_correct d0.ord (dateYear d0) (dateMonth d0) (dateDay d0) rfl
    obtain ⟨w, hw, hkw⟩ := mem_monthcalendar (dateYear d0) (dateMonth d0) (dateDay d0) Hd1 Hd2
    obtain ⟨row, hrow, hcell⟩ := cell_protocol2 (dateYear d0) (dateMonth d0)
      (sessions_to_set (protocol2_sessions R).1) (sessions_to_set (protocol2_sessions R).2.1)
      (sessions_to_set (protocol2_sessions R).2.2)
      R w hw (dateDay d0) hkw (by omega)
    have hnorm : replaceMidnight (mkDatetime (dateYear d0) (dateMonth d0) (dateDay d0)) =
        replaceMidnight d0 := by
      simp only [mkDatetime, replaceMidnight, PyDateTime.mk.injEq, and_true]
      exact Hord
    rw [hnorm] at hcell
    have hmts : (dateYear d0, dateMonth d0) ∈
        months_to_show ((protocol2_sessions R).1 ++ (protocol2_sessions R).2.1 ++
          (protocol2_sessions R).2.2) R :=
      (mem_months_to_show _ R _ _).mpr ⟨d0, hd0, rfl, rfl⟩
    refine ⟨_, ?_, ⟨row, hrow, hcell⟩⟩
    simp only [protocol2_calendar_months]
    exact List.mem_map.mpr ⟨(dateYear d0, dateMonth d0), hmts, rfl⟩

/-- Witness for C5: the race date 2024-08-10 itself appears, with its
precedence-resolved category, in a grid of the built list for protocol 1. -/
theorem months_and_grid_completeness_witness :
    ∃ grid, (dateYear (mkDatetime 2024 8 10), dateMonth (mkDatetime 2024 8 10), grid) ∈
      protocol1_calendar_months (mkDatetime 2024 8 10) ∧
      ∃ row ∈ grid, (some (dateDay (mkDatetime 2024 8 10)),
        resolveCategory1 (sessions_to_set (protocol1_sessions (mkDatetime 2024 8 10)).1)
          (sessions_to_set (protocol1_sessions (mkDatetime 2024 8 10)).2)
          (replaceMidnight (mkDatetime 2024 8 10))
          (replaceMidnight (mkDatetime 2024 8 10))) ∈ row :=
  (months_and_grid_completeness (mkDatetime 2024 8 10)).2.1 (mkDatetime 2024 8 10)
    (Or.inr rfl)
